import Mathlib

/-!
# DocuMind — verification of the Modular RAG pipeline core

Shallow embedding of the retrieval-augmented-generation backend's core
algorithms (chunking engine, indexing pipeline, retrieval stages 2 and 3,
batch embedding, vector-store query filter), translated from
`api/service/rag/rag_service.py`, `api/service/rag/pinecone_service.py`,
`api/service/rag/embedding_service.py` and
`api/controller/rag_controller.py`.

Strings are modelled as `List Char`; Python floats as `ℚ`; Python dicts as
association lists or `Option`-valued records; fresh `uuid` identifiers as
deterministic indices (the claims below never depend on the identifier
text, only on identity and linkage).  Loops whose Python form is
`while`/`for` with data-dependent exits are written with an explicit fuel
argument so that every definition evaluates inside the kernel.
-/

namespace DocuMind

/-- Python `str.isspace`-style whitespace (the characters matched by `\s`
in an ASCII document, as used by `re` and `str.strip`). -/
def isPySpace (c : Char) : Bool :=
  c = ' ' || c = '\t' || c = '\n' || c = '\r' || c = '\x0b' || c = '\x0c'

/-- Python `\w` word character (ASCII range, as in the chunker's regex). -/
def isWordChar (c : Char) : Bool :=
  c.isAlphanum || c = '_'

/-- Python `str.strip()`: drop leading and trailing whitespace. -/
def pyStrip (s : List Char) : List Char :=
  ((s.dropWhile isPySpace).reverse.dropWhile isPySpace).reverse

/-- Python slice `content[start:start+len]`. -/
def pySlice (content : List Char) (start len : Nat) : List Char :=
  (content.drop start).take len

theorem length_dropWhile_le (p : Char → Bool) (l : List Char) :
    (l.dropWhile p).length ≤ l.length := by
  induction l with
  | nil => simp [List.dropWhile]
  | cons a l ih =>
    by_cases h : p a
    · simp [List.dropWhile, h]; omega
    · simp [List.dropWhile, h]

theorem length_pyStrip_le (s : List Char) : (pyStrip s).length ≤ s.length := by
  unfold pyStrip
  calc ((s.dropWhile isPySpace).reverse.dropWhile isPySpace).reverse.length
      = ((s.dropWhile isPySpace).reverse.dropWhile isPySpace).length := by
        simp
    _ ≤ (s.dropWhile isPySpace).reverse.length := length_dropWhile_le _ _
    _ = (s.dropWhile isPySpace).length := by simp
    _ ≤ s.length := length_dropWhile_le _ _

/-! ## Sentence splitting

`rag_service._chunk_document_small_to_big` splits each parent chunk with
the compiled regex

    (?<!\w\.\w.)(?<![A-Z][a-z]\.)(?<=\.|\?|\!)\s+

`re.split` scans left to right; a split happens at a maximal whitespace
run whose start position satisfies the three lookbehinds.  `prev` below is
the reversed list of all characters before the current position, so
`prev = [s(i-1), s(i-2), …]`. -/

/-- Lookbehind `(?<=[A-Z][a-z]\.)`: the three characters before the
position are an upper-case letter, a lower-case letter, and a dot. -/
def lookbehindAbbrev (prev : List Char) : Bool :=
  match prev with
  | c1 :: c2 :: c3 :: _ => c1 = '.' && c2.isLower && c3.isUpper
  | _ => false

/-- Lookbehind `(?<=\w\.\w.)`: the four characters before the position are
word-char, dot, word-char, any-char (regex `.` excludes newline). -/
def lookbehindWordDot (prev : List Char) : Bool :=
  match prev with
  | c1 :: c2 :: c3 :: c4 :: _ =>
      isWordChar c4 && c3 = '.' && isWordChar c2 && !(c1 = '\n')
  | _ => false

/-- The regex matches (and the string is split) at a position whose
preceding character is `.`, `?` or `!` and where neither negative
lookbehind fires. -/
def isSplitPoint (prev : List Char) : Bool :=
  (match prev with
   | c1 :: _ => c1 = '.' || c1 = '?' || c1 = '!'
   | [] => false)
  && !(lookbehindWordDot prev) && !(lookbehindAbbrev prev)

/-- One scanning step of `re.split`: `prev` is the reversed consumed
prefix, `cur` the reversed current token, `rem` the rest of the input.
`fuel` bounds the recursion (each step consumes at least one character of
`rem`). -/
def splitSentencesGo : Nat → List Char → List Char → List Char → List (List Char)
  | 0, _, cur, _ => [cur.reverse]
  | _ + 1, _, cur, [] => [cur.reverse]
  | fuel + 1, prev, cur, c :: rest =>
    if isPySpace c && isSplitPoint prev then
      -- the greedy `\s+` consumes the maximal whitespace run
      let ws := (c :: rest).takeWhile isPySpace
      let rest' := (c :: rest).dropWhile isPySpace
      cur.reverse :: splitSentencesGo fuel (ws.reverse ++ prev) [] rest'
    else
      splitSentencesGo fuel (c :: prev) (c :: cur) rest

/-- `sentence_pattern.split(parent_content)`. -/
def splitSentences (s : List Char) : List (List Char) :=
  splitSentencesGo s.length [] [] s

/-! ## The chunking engine (`_chunk_document_small_to_big`) -/

/-- `self.parent_chunk_size` (1000). -/
def parentChunkSize : Nat := 1000

/-- `self.chunk_overlap` (100). -/
def chunkOverlap : Nat := 100

/-- A parent chunk.  `id` stands for the fresh `parent_<uuid4>` string; the
window start offset is used as a deterministic stand-in — the claims only
rely on parent identity and on the child→parent linkage. -/
structure ParentChunk where
  id : Nat
  content : List Char
  title : List Char
deriving DecidableEq, Repr

/-- A child chunk (its own fresh `child_<uuid4>` is not modelled: no claim
mentions child identifiers). -/
structure ChildChunk where
  content : List Char
  parentId : Nat
deriving DecidableEq, Repr

/-- The window starts produced by the loop
`start = 0; while start < len(content): …; start += parent_chunk_size - chunk_overlap`.
`fuel` bounds the iterations; `windowStarts` supplies enough. -/
def windowStartsGo (L : Nat) : Nat → Nat → List Nat
  | 0, _ => []
  | fuel + 1, start =>
    if start < L then
      start :: windowStartsGo L fuel (start + (parentChunkSize - chunkOverlap))
    else []

def windowStarts (L : Nat) : List Nat :=
  windowStartsGo L (L + 1) 0

/-- The chunking engine: slide a `parent_chunk_size` window advancing by
`parent_chunk_size - chunk_overlap`; for each non-empty (post-strip)
parent slice, split into sentences and keep those longer than 20
characters after stripping as child chunks. -/
def chunkDocument (content : List Char) (title : List Char) :
    List ParentChunk × List ChildChunk :=
  let starts := windowStarts content.length
  let parents := starts.filterMap (fun s =>
    let parentContent := pyStrip (pySlice content s parentChunkSize)
    if parentContent = [] then none
    else some ({ id := s, content := parentContent, title := title } : ParentChunk))
  let children := parents.foldr (fun p acc =>
    ((splitSentences p.content).filterMap (fun sentence =>
      let t := pyStrip sentence
      if 20 < t.length then some ({ content := t, parentId := p.id } : ChildChunk)
      else none)) ++ acc) []
  (parents, children)

/-- `(pySlice content s parentChunkSize).length ≤ parentChunkSize`. -/
theorem length_pySlice_le (content : List Char) (s n : Nat) :
    (pySlice content s n).length ≤ n := by
  simp [pySlice]

/-- Every index below `i < start + fuel·step` that the loop can still reach
is covered by one of the produced windows. -/
theorem windowStartsGo_cover (L : Nat) :
    ∀ fuel start i, start ≤ i → i < L →
      i < start + fuel * (parentChunkSize - chunkOverlap) →
      ∃ s ∈ windowStartsGo L fuel start, s ≤ i ∧ i < s + parentChunkSize := by
  intro fuel
  induction fuel with
  | zero => intro start i h1 _ h3; omega
  | succ n ih =>
    intro start i h1 h2 h3
    have hsl : start < L := lt_of_le_of_lt h1 h2
    by_cases hcase : i < start + (parentChunkSize - chunkOverlap)
    · refine ⟨start, ?_, h1, ?_⟩
      · simp [windowStartsGo, hsl]
      · unfold parentChunkSize chunkOverlap at *
        omega
    · obtain ⟨s, hs, h4, h5⟩ :=
        ih (start + (parentChunkSize - chunkOverlap)) i (by omega) h2
          (by unfold parentChunkSize chunkOverlap at h3 ⊢; omega)
      refine ⟨s, ?_, h4, h5⟩
      simp only [windowStartsGo, if_pos hsl, List.mem_cons]
      exact Or.inr hs

/-- C8, "Chunking coverage and size bound": for a document of length
`L ≥ parent_chunk_size`, every character position lies inside one of the
sliding windows (so the overlapping parent chunks jointly cover the whole
content), and no produced parent chunk's content exceeds
`parent_chunk_size` characters. -/
theorem claim_C8_chunk_coverage (content title : List Char)
    (hL : parentChunkSize ≤ content.length) :
    (∀ i, i < content.length →
      ∃ s ∈ windowStarts content.length, s ≤ i ∧ i < s + parentChunkSize) ∧
    (∀ p ∈ (chunkDocument content title).1, p.content.length ≤ parentChunkSize) := by
  constructor
  · intro i hi
    apply windowStartsGo_cover content.length (content.length + 1) 0 i (Nat.zero_le i) hi
    unfold parentChunkSize chunkOverlap
    omega
  · intro p hp
    simp only [chunkDocument, List.mem_filterMap] at hp
    obtain ⟨s, _, heq⟩ := hp
    by_cases h : pyStrip (pySlice content s parentChunkSize) = []
    · simp [h] at heq
    · simp only [if_neg h] at heq
      obtain rfl := Option.some.inj heq
      exact le_trans (length_pyStrip_le _) (length_pySlice_le _ _ _)

/-- Witness for C8 at a concrete 1000-character document and position 500. -/
theorem claim_C8_witness :
    parentChunkSize ≤ (List.replicate 1000 'a').length ∧
    (∃ s ∈ windowStarts (List.replicate 1000 'a').length,
      s ≤ 500 ∧ 500 < s + parentChunkSize) :=
  ⟨by simp only [List.length_replicate, parentChunkSize]; omega,
   (claim_C8_chunk_coverage (List.replicate 1000 'a') []
      (by simp only [List.length_replicate, parentChunkSize]; omega)).1 500
      (by simp only [List.length_replicate]; omega)⟩

/-- C4 fails on the code: chunking "Hello world. This is a test." does
split it into the two expected sentences, but both are at most 20
characters after stripping (12 and 15), so the `> 20` length filter
discards them and **zero** child chunks are produced, not two. -/
theorem claim_C4_counterexample :
    (splitSentences "Hello world. This is a test.".toList) =
      ["Hello world.".toList, "This is a test.".toList] ∧
    ¬ ((chunkDocument "Hello world. This is a test.".toList "Test".toList).2.length = 2) := by
  constructor
  · decide
  · decide

/-- C4 as amended: chunking "Hello world. This is a test." with
`parent_chunk_size = 1000` yields exactly 1 parent chunk and exactly 0
child chunks — the sentence splitter does produce "Hello world." and
"This is a test.", but both fall at or below the 20-character post-trim
minimum and are discarded as noise. -/
theorem claim_C4_amended :
    (chunkDocument "Hello world. This is a test.".toList "Test".toList).1.length = 1 ∧
    (chunkDocument "Hello world. This is a test.".toList "Test".toList).2 = [] := by
  constructor
  · decide
  · decide

/-! ## Retrieval Stage 2 (`retrieval_module`)

A child-chunk query match as `retrieval_module` consumes it: a Python dict
with an optional `score` (`res.get('score', 0.0)`) and a `metadata` dict
with an optional `parent_id` (`if 'parent_id' in metadata`) and a content
string (`metadata.get('content', '')`; an absent key is modelled by the
default `""`). -/

structure ChildResult where
  score : Option ℚ
  parentId : Option String
  content : String
deriving DecidableEq, Repr

/-- Step 2 of `retrieval_module`: keep results whose score is at least
`similarity_threshold`; if that empties the set, fall back to all results
(`if not filtered_results: filtered_results = child_results`). -/
def thresholdFilter (childResults : List ChildResult) (similarityThreshold : ℚ) :
    List ChildResult :=
  let filtered := childResults.filter (fun r => similarityThreshold ≤ r.score.getD 0)
  if filtered.isEmpty then childResults else filtered

/-- C3, "Threshold never starves retrieval": if the vector query matched at
least one child chunk, the threshold-filtering step never produces an
empty set — when the threshold removes every candidate it falls back to
all unfiltered results. -/
theorem claim_C3_threshold_fallback (childResults : List ChildResult)
    (similarityThreshold : ℚ) (h : childResults ≠ []) :
    thresholdFilter childResults similarityThreshold ≠ [] ∧
    (childResults.filter (fun r => similarityThreshold ≤ r.score.getD 0) = [] →
      thresholdFilter childResults similarityThreshold = childResults) := by
  constructor
  · unfold thresholdFilter
    by_cases hf : (childResults.filter (fun r => similarityThreshold ≤ r.score.getD 0)).isEmpty
    · simpa [hf]
    · simp only [hf, if_false, Bool.false_eq_true]
      intro hc
      rw [List.isEmpty_iff] at hf
      exact hf hc
  · intro hf
    unfold thresholdFilter
    simp [hf]

/-- Witness for C3: a single raw match scoring 1/2 against threshold 99/100
(the spec's end-to-end scenario 2) survives the stage. -/
theorem claim_C3_witness :
    (([⟨some (1/2), some "p1", "c"⟩] : List ChildResult) ≠ []) ∧
    thresholdFilter [⟨some (1/2), some "p1", "c"⟩] (99/100) ≠ [] :=
  ⟨by decide,
   (claim_C3_threshold_fallback [⟨some (1/2), some "p1", "c"⟩] (99/100) (by decide)).1⟩

/-! ### Diversity-guarded parent selection (step 3 of `retrieval_module`) -/

/-- The loop state: `parent_ids` (ordered, deduplicated), `parent_scores`
and the `seen_content_hashes` set (modelled as a list, only membership is
used). -/
structure SelectState where
  parentIds : List String
  parentScores : List (String × ℚ)
  seenHashes : List Int
deriving DecidableEq, Repr

/-- One iteration of the selection loop.  `hashFn` stands for Python's
`hash`; the content hash is `hash(content[:200])`.  A result without a
`parent_id` key is skipped; a repeated `parent_id` is skipped; otherwise
the parent is accepted iff its content hash is unseen **or** fewer than 3
parents have been selected so far. -/
def selectStep (hashFn : String → Int) (st : SelectState) (res : ChildResult) :
    SelectState :=
  match res.parentId with
  | none => st
  | some pid =>
    let contentHash := hashFn (res.content.take 200)
    if pid ∈ st.parentIds then st
    else if contentHash ∉ st.seenHashes ∨ st.parentIds.length < 3 then
      { parentIds := st.parentIds ++ [pid],
        parentScores := st.parentScores ++ [(pid, res.score.getD 0)],
        seenHashes := st.seenHashes ++ [contentHash] }
    else st

/-- The full selection pass over the threshold-filtered results, returning
the chosen parent ids in order. -/
def selectParents (hashFn : String → Int) (filteredResults : List ChildResult) :
    List String :=
  (filteredResults.foldl (selectStep hashFn) ⟨[], [], []⟩).parentIds

theorem selectStep_parentIds_mono (hashFn : String → Int) (st : SelectState)
    (res : ChildResult) : ∀ p ∈ st.parentIds, p ∈ (selectStep hashFn st res).parentIds := by
  intro p hp
  unfold selectStep
  cases res.parentId with
  | none => exact hp
  | some pid =>
    dsimp only
    split
    · exact hp
    · split
      · simp only [List.mem_append]
        exact Or.inl hp
      · exact hp

theorem selectStep_length_mono (hashFn : String → Int) (st : SelectState)
    (res : ChildResult) :
    st.parentIds.length ≤ (selectStep hashFn st res).parentIds.length := by
  unfold selectStep
  cases res.parentId with
  | none => exact le_refl _
  | some pid =>
    dsimp only
    split
    · exact le_refl _
    · split
      · simp
      · exact le_refl _

theorem selectStep_nodup (hashFn : String → Int) (st : SelectState)
    (res : ChildResult) (h : st.parentIds.Nodup) :
    (selectStep hashFn st res).parentIds.Nodup := by
  unfold selectStep
  cases res.parentId with
  | none => exact h
  | some pid =>
    dsimp only
    split
    · exact h
    · split
      · next hmem _ =>
        simpa [List.nodup_append] using ⟨h, hmem⟩
      · exact h

theorem foldl_select_parentIds_mono (hashFn : String → Int) :
    ∀ (l : List ChildResult) (st : SelectState) (p : String), p ∈ st.parentIds →
      p ∈ (l.foldl (selectStep hashFn) st).parentIds := by
  intro l
  induction l with
  | nil => intro st p hp; exact hp
  | cons a l ih =>
    intro st p hp
    exact ih (selectStep hashFn st a) p (selectStep_parentIds_mono hashFn st a p hp)

theorem foldl_select_length_mono (hashFn : String → Int) :
    ∀ (l : List ChildResult) (st : SelectState),
      st.parentIds.length ≤ (l.foldl (selectStep hashFn) st).parentIds.length := by
  intro l
  induction l with
  | nil => intro st; exact le_refl _
  | cons a l ih =>
    intro st
    exact le_trans (selectStep_length_mono hashFn st a) (ih (selectStep hashFn st a))

theorem foldl_select_nodup (hashFn : String → Int) :
    ∀ (l : List ChildResult) (st : SelectState), st.parentIds.Nodup →
      (l.foldl (selectStep hashFn) st).parentIds.Nodup := by
  intro l
  induction l with
  | nil => intro st h; exact h
  | cons a l ih =>
    intro st h
    exact ih (selectStep hashFn st a) (selectStep_nodup hashFn st a h)

/-- After processing a result carrying `parent_id = p`, either `p` ends up
among the selected parents or at least 3 parents are already selected:
the diversity guard only ever skips a fresh parent when the floor of 3 is
already met. -/
theorem foldl_select_visits (hashFn : String → Int) :
    ∀ (l : List ChildResult) (st : SelectState) (r : ChildResult) (p : String),
      r ∈ l → r.parentId = some p →
      p ∈ (l.foldl (selectStep hashFn) st).parentIds ∨
        3 ≤ (l.foldl (selectStep hashFn) st).parentIds.length := by
  intro l
  induction l with
  | nil => intro st r p hr _; exact absurd hr (List.not_mem_nil r)
  | cons a l ih =>
    intro st r p hr hp
    rcases List.mem_cons.mp hr with rfl | hr'
    · -- the result is processed by this very step
      have key : p ∈ (selectStep hashFn st r).parentIds ∨
          3 ≤ (selectStep hashFn st r).parentIds.length := by
        unfold selectStep
        rw [hp]
        dsimp only
        split
        · next hmem => exact Or.inl hmem
        · split
          · next hcond =>
            left
            simp
          · next hmem hcond =>
            right
            push_neg at hcond
            have := hcond.2
            simpa using this
      rcases key with hmem | hlen
      · exact Or.inl (foldl_select_parentIds_mono hashFn l _ p hmem)
      · exact Or.inr (le_trans hlen (foldl_select_length_mono hashFn l _))
    · exact ih (selectStep hashFn st a) r p hr' hp

theorem three_distinct_mem_length {α : Type} [DecidableEq α] (l : List α)
    (a b c : α) (ha : a ∈ l) (hb : b ∈ l) (hc : c ∈ l)
    (hab : a ≠ b) (hac : a ≠ c) (hbc : b ≠ c) : 3 ≤ l.length := by
  have hsub : ({a, b, c} : Finset α) ⊆ l.toFinset := by
    intro x hx
    simp only [Finset.mem_insert, Finset.mem_singleton] at hx
    rcases hx with rfl | rfl | rfl <;> simpa [List.mem_toFinset]
  have hcard : ({a, b, c} : Finset α).card = 3 := by
    rw [Finset.card_insert_of_not_mem (by simp [hab, hac]),
        Finset.card_insert_of_not_mem (by simp [hbc]),
        Finset.card_singleton]
  calc 3 = ({a, b, c} : Finset α).card := hcard.symm
    _ ≤ l.toFinset.card := Finset.card_le_card hsub
    _ ≤ l.length := l.toFinset_card_le

/-- C5, "Minimum diversity floor": if the threshold-filtered child results
contain three candidates for pairwise-distinct parents (with pairwise
distinct contents, as the claim assumes), the content-hash diversity
guard never selects fewer than 3 distinct parent ids — for any hash
function, so hash collisions cannot break the floor either. -/
theorem claim_C5_diversity_floor (hashFn : String → Int)
    (filteredResults : List ChildResult) (r1 r2 r3 : ChildResult)
    (p1 p2 p3 : String)
    (h1 : r1 ∈ filteredResults) (h2 : r2 ∈ filteredResults)
    (h3 : r3 ∈ filteredResults)
    (hp1 : r1.parentId = some p1) (hp2 : r2.parentId = some p2)
    (hp3 : r3.parentId = some p3)
    (hne12 : p1 ≠ p2) (hne13 : p1 ≠ p3) (hne23 : p2 ≠ p3)
    (hc12 : r1.content ≠ r2.content) (hc13 : r1.content ≠ r3.content)
    (hc23 : r2.content ≠ r3.content) :
    3 ≤ (selectParents hashFn filteredResults).length ∧
    (selectParents hashFn filteredResults).Nodup := by
  constructor
  · rcases foldl_select_visits hashFn filteredResults ⟨[], [], []⟩ r1 p1 h1 hp1 with hm1 | hl
    · rcases foldl_select_visits hashFn filteredResults ⟨[], [], []⟩ r2 p2 h2 hp2 with hm2 | hl
      · rcases foldl_select_visits hashFn filteredResults ⟨[], [], []⟩ r3 p3 h3 hp3 with hm3 | hl
        · exact three_distinct_mem_length _ p1 p2 p3 hm1 hm2 hm3 hne12 hne13 hne23
        · exact hl
      · exact hl
    · exact hl
  · exact foldl_select_nodup hashFn filteredResults ⟨[], [], []⟩ (by simp)

/-- Witness for C5: three filtered child results with distinct parents and
contents, under a constant hash function (worst case: every content hash
collides). -/
theorem claim_C5_witness :
    ((⟨some 1, some "pa", "x"⟩ : ChildResult) ∈
      ([⟨some 1, some "pa", "x"⟩, ⟨some (1/2), some "pb", "y"⟩,
        ⟨some (1/4), some "pc", "z"⟩] : List ChildResult)) ∧
    3 ≤ (selectParents (fun _ => 0)
      [⟨some 1, some "pa", "x"⟩, ⟨some (1/2), some "pb", "y"⟩,
       ⟨some (1/4), some "pc", "z"⟩]).length :=
  ⟨by simp,
   (claim_C5_diversity_floor (fun _ => 0)
      [⟨some 1, some "pa", "x"⟩, ⟨some (1/2), some "pb", "y"⟩,
       ⟨some (1/4), some "pc", "z"⟩]
      ⟨some 1, some "pa", "x"⟩ ⟨some (1/2), some "pb", "y"⟩
      ⟨some (1/4), some "pc", "z"⟩ "pa" "pb" "pc"
      (by simp) (by simp) (by simp) rfl rfl rfl
      (by decide) (by decide) (by decide)
      (by decide) (by decide) (by decide)).1⟩

/-! ## Retrieval Stage 3 (`post_retrieval_module`)

A chunk as reranking sees it: an optional reranker `score` and an optional
`retrieval_score` (both read with `dict.get` defaults).  The effective
score of a chunk is `chunk.get('score', chunk.get('retrieval_score', 0.5))`. -/

structure RChunk where
  score : Option ℚ
  retrievalScore : Option ℚ
deriving DecidableEq, Repr

def effScore (c : RChunk) : ℚ :=
  c.score.getD (c.retrievalScore.getD (1/2))

/-- The adaptive `keep_count`.  Python's `int(target_count * 1.5)` and
`int(target_count * 1.2)` truncate exact float products; for machine-range
integers they equal `⌊3t/2⌋` and `⌊6t/5⌋` (1.5 is an exact double, and the
1.2 product's rounding error is far below the distance to the next
integer), which is how they are rendered here. -/
def keepCount (targetCount numChunks : Nat) : Nat :=
  if targetCount * 2 ≤ numChunks then min (3 * targetCount / 2) numChunks
  else if targetCount ≤ numChunks then min (6 * targetCount / 5) numChunks
  else numChunks

/-- The quality gate over the reranked chunks, tracking positions (Python
mutates the shared dict objects, so the later `not in` test is by object
identity; the position is that identity).  Keep a chunk scoring at least
`min_relevance_score`; otherwise keep it only while fewer than 2 chunks
are kept and it scores above 0.15. -/
def qualityGate (reranked : List RChunk) (minRelevanceScore : ℚ) :
    List (Nat × RChunk) :=
  reranked.enum.foldl (fun hq ic =>
    if minRelevanceScore ≤ effScore ic.2 then hq ++ [ic]
    else if hq.length < 2 ∧ (15/100 : ℚ) < effScore ic.2 then hq ++ [ic]
    else hq) []

/-- The absolute fallback: if the gate kept nothing but reranking produced
output, keep the top `min(3, len(reranked_chunks))` reranked chunks. -/
def gateWithFallback (reranked : List RChunk) (minRelevanceScore : ℚ) :
    List (Nat × RChunk) :=
  if qualityGate reranked minRelevanceScore = [] ∧ reranked ≠ [] then
    reranked.enum.take (min 3 reranked.length)
  else qualityGate reranked minRelevanceScore

/-- The "ensure we have enough context" sweep: walk the reranked chunks,
appending any not yet kept whose raw `score` (default 0.0) exceeds the
0.01 floor, stopping once 3 are kept. -/
def ensureContextLoop : List (Nat × RChunk) → List (Nat × RChunk) →
    List (Nat × RChunk)
  | [], hq => hq
  | ic :: rest, hq =>
    if ic.1 ∉ hq.map Prod.fst ∧ (1/100 : ℚ) < ic.2.score.getD 0 then
      if 3 ≤ (hq ++ [ic]).length then hq ++ [ic]
      else ensureContextLoop rest (hq ++ [ic])
    else ensureContextLoop rest hq

/-- Stage 3 after the external reranker has run: quality gate, absolute
fallback, context sweep, and the `[:max(target_count, 8)]` cap. -/
def postRetrievalSelect (reranked : List RChunk) (targetCount : Nat)
    (minRelevanceScore : ℚ) : List (Nat × RChunk) :=
  (if (gateWithFallback reranked minRelevanceScore).length < min 3 reranked.length
   then ensureContextLoop reranked.enum (gateWithFallback reranked minRelevanceScore)
   else gateWithFallback reranked minRelevanceScore).take (max targetCount 8)

/-- The full stage: `rerank` stands for the external
`rerank_service.rerank_documents(query, documents, top_n)` collaborator,
called with the adaptive `keep_count`; its output feeds the selection. -/
def postRetrievalModule (rerank : List RChunk → Nat → List RChunk)
    (chunks : List RChunk) (targetCount : Nat) (minRelevanceScore : ℚ) :
    List RChunk :=
  if chunks = [] then []
  else
    (postRetrievalSelect (rerank chunks (keepCount targetCount chunks.length))
      targetCount minRelevanceScore).map Prod.snd

/-- C6, "Reranking adaptive keep_count": the three-tier rule, the bound by
the candidate count, and monotonicity in the candidate-pool size for any
fixed `target_count ≥ 1`. -/
theorem claim_C6_keep_count (targetCount : Nat) (ht : 1 ≤ targetCount) :
    (∀ n, targetCount * 2 ≤ n → keepCount targetCount n = 3 * targetCount / 2) ∧
    (∀ n, targetCount ≤ n → n < targetCount * 2 →
      keepCount targetCount n = min (6 * targetCount / 5) n) ∧
    (∀ n, n < targetCount → keepCount targetCount n = n) ∧
    (∀ n, keepCount targetCount n ≤ n) ∧
    (∀ n m, n ≤ m → keepCount targetCount n ≤ keepCount targetCount m) := by
  refine ⟨?_, ?_, ?_, ?_, ?_⟩
  · intro n hn
    unfold keepCount
    rw [if_pos hn]
    omega
  · intro n hn1 hn2
    unfold keepCount
    rw [if_neg (by omega), if_pos hn1]
  · intro n hn
    unfold keepCount
    rw [if_neg (by omega), if_neg (by omega)]
  · intro n
    unfold keepCount
    split
    · omega
    · split
      · omega
      · exact le_refl n
  · intro n m hnm
    unfold keepCount
    simp only [Nat.min_def]
    split_ifs <;> omega

/-- Witness for C6 at `target_count = 5`: pools of 10 and 20 candidates
keep 7 = ⌊1.5·5⌋ each, a pool of 6 keeps 6 = min(⌊1.2·5⌋, 6), a pool of 3
keeps all 3, and the monotone step from 4 to 12 candidates. -/
theorem claim_C6_witness :
    1 ≤ 5 ∧ keepCount 5 10 = 3 * 5 / 2 ∧ keepCount 5 6 = min (6 * 5 / 5) 6 ∧
    keepCount 5 3 = 3 ∧ keepCount 5 4 ≤ keepCount 5 12 :=
  ⟨by decide, (claim_C6_keep_count 5 (by decide)).1 10 (by decide),
   (claim_C6_keep_count 5 (by decide)).2.1 6 (by decide) (by decide),
   (claim_C6_keep_count 5 (by decide)).2.2.1 3 (by decide),
   (claim_C6_keep_count 5 (by decide)).2.2.2.2 4 12 (by decide)⟩

theorem ensureContextLoop_extends :
    ∀ (l hq : List (Nat × RChunk)), ∃ ext, ensureContextLoop l hq = hq ++ ext := by
  intro l
  induction l with
  | nil => intro hq; exact ⟨[], by simp [ensureContextLoop]⟩
  | cons ic rest ih =>
    intro hq
    unfold ensureContextLoop
    split
    · split
      · exact ⟨[ic], rfl⟩
      · obtain ⟨ext, hext⟩ := ih (hq ++ [ic])
        exact ⟨[ic] ++ ext, by rw [hext, List.append_assoc]⟩
    · exact ih hq

theorem take_cons_ne_nil {α : Type} (a : α) (l : List α) (n : Nat)
    (hn : 0 < n) : (a :: l).take n ≠ [] := by
  obtain ⟨k, rfl⟩ : ∃ k, n = k + 1 := ⟨n - 1, by omega⟩
  simp [List.take]

theorem gateWithFallback_ne_nil (reranked : List RChunk)
    (minRelevanceScore : ℚ) (h : reranked ≠ []) :
    gateWithFallback reranked minRelevanceScore ≠ [] := by
  unfold gateWithFallback
  split
  · next hcond =>
    have hlen : 1 ≤ reranked.length := by
      cases reranked with
      | nil => exact absurd rfl h
      | cons a l => simp
    cases he : reranked.enum with
    | nil =>
      have : reranked.enum.length = 0 := by rw [he]; rfl
      rw [List.enum_length] at this
      omega
    | cons a l =>
      exact take_cons_ne_nil a l _ (by omega)
  · next hcond =>
    intro hnil
    exact hcond ⟨hnil, h⟩

/-- C7, "Stage 3 absolute fallback and output cap": whenever the external
reranker returns any chunks, the stage's final output is non-empty, and in
every case the final output holds at most `max(target_count, 8)` chunks. -/
theorem claim_C7_fallback_and_cap (rerank : List RChunk → Nat → List RChunk)
    (chunks : List RChunk) (targetCount : Nat) (minRelevanceScore : ℚ)
    (hc : chunks ≠ [])
    (hr : rerank chunks (keepCount targetCount chunks.length) ≠ []) :
    postRetrievalModule rerank chunks targetCount minRelevanceScore ≠ [] ∧
    (postRetrievalModule rerank chunks targetCount minRelevanceScore).length ≤
      max targetCount 8 := by
  set reranked := rerank chunks (keepCount targetCount chunks.length) with hrr
  have hmod : postRetrievalModule rerank chunks targetCount minRelevanceScore =
      (postRetrievalSelect reranked targetCount minRelevanceScore).map Prod.snd := by
    unfold postRetrievalModule
    rw [if_neg hc]
  have hsel_ne : postRetrievalSelect reranked targetCount minRelevanceScore ≠ [] := by
    unfold postRetrievalSelect
    have hbase : gateWithFallback reranked minRelevanceScore ≠ [] :=
      gateWithFallback_ne_nil reranked minRelevanceScore hr
    have hne2 : (if (gateWithFallback reranked minRelevanceScore).length <
        min 3 reranked.length
      then ensureContextLoop reranked.enum (gateWithFallback reranked minRelevanceScore)
      else gateWithFallback reranked minRelevanceScore) ≠ [] := by
      split
      · obtain ⟨ext, hext⟩ :=
          ensureContextLoop_extends reranked.enum
            (gateWithFallback reranked minRelevanceScore)
        rw [hext]
        intro habs
        exact hbase (List.append_eq_nil.mp habs).1
      · exact hbase
    cases hh : (if (gateWithFallback reranked minRelevanceScore).length <
        min 3 reranked.length
      then ensureContextLoop reranked.enum (gateWithFallback reranked minRelevanceScore)
      else gateWithFallback reranked minRelevanceScore) with
    | nil => exact absurd hh hne2
    | cons a l =>
      exact take_cons_ne_nil a l _ (by omega)
  constructor
  · rw [hmod]
    intro habs
    exact hsel_ne (List.map_eq_nil_iff.mp habs)
  · rw [hmod, List.length_map]
    unfold postRetrievalSelect
    exact le_trans (List.length_take_le _ _) (le_refl _)

/-- Witness for C7: a single retrieved chunk, an identity reranker, and the
controller's `min_relevance_score = 0.35`. -/
theorem claim_C7_witness :
    (([⟨some 1, none⟩] : List RChunk) ≠ []) ∧
    ((fun (l : List RChunk) (_ : Nat) => l) [⟨some 1, none⟩]
      (keepCount 5 ([⟨some 1, none⟩] : List RChunk).length) ≠ []) ∧
    postRetrievalModule (fun l _ => l) [⟨some 1, none⟩] 5 (35/100) ≠ [] :=
  ⟨by simp, by simp,
   (claim_C7_fallback_and_cap (fun l _ => l) [⟨some 1, none⟩] 5 (35/100)
      (by simp) (by simp)).1⟩

/-! ## Batch embedding (`EmbeddingService.get_embeddings_batch`)

The external Gemini embedding API is a parameter: `api b a` is the
response of attempt `a` for batch number `b` (`none` models a raised
exception, `some ess` a response whose item vectors are `ess`).  Retry
waits and rate-limit sleeps have no observable effect on the returned
list and are not modelled. -/

/-- The loop `for i in range(0, len(texts), batch_size)`: the successive
slices `texts[i:i+batch_size]`.  `fuel` bounds the recursion; `chunksOf`
supplies enough. -/
def chunksOfGo (batchSize : Nat) : Nat → List String → List (List String)
  | 0, _ => []
  | fuel + 1, l =>
    if l = [] then []
    else l.take batchSize :: chunksOfGo batchSize fuel (l.drop batchSize)

def chunksOf (batchSize : Nat) (l : List String) : List (List String) :=
  chunksOfGo batchSize l.length l

/-- The retry loop for one batch (`max_retries = 5`): the first response
whose embedding count matches the batch size wins; a wrong count raises
(`Incomplete batch response`) and retries like an exception. -/
def batchAttempts (resp : Nat → Option (List (List ℚ))) (batchLen : Nat) :
    Nat → Nat → Option (List (List ℚ))
  | _, 0 => none
  | attempt, remaining + 1 =>
    match resp attempt with
    | some embeddings =>
        if embeddings.length = batchLen then some embeddings
        else batchAttempts resp batchLen (attempt + 1) remaining
    | none => batchAttempts resp batchLen (attempt + 1) remaining

/-- `max_retries` in `get_embeddings_batch`. -/
def maxRetries : Nat := 5

/-- One batch's contribution to `all_embeddings`: the verified response,
or — after all retries fail — one empty list per batch item
(`all_embeddings.extend([[] for _ in batch])`). -/
def runBatch (resp : Nat → Option (List (List ℚ))) (batch : List String) :
    List (List ℚ) :=
  match batchAttempts resp batch.length 0 maxRetries with
  | some embeddings => embeddings
  | none => List.replicate batch.length []

/-- `get_embeddings_batch(texts)` with the default `batch_size = 20`.
`clientInitialized` models `self.client`; when it is `None` the method
returns `[]` immediately, as it does for empty input. -/
def getEmbeddingsBatch (api : Nat → Nat → Option (List (List ℚ)))
    (clientInitialized : Bool) (texts : List String) : List (List ℚ) :=
  if texts = [] then []
  else if ¬ clientInitialized then []
  else ((chunksOf 20 texts).enum.map (fun bi => runBatch (api bi.1) bi.2)).flatten

theorem batchAttempts_length (resp : Nat → Option (List (List ℚ)))
    (batchLen : Nat) :
    ∀ remaining attempt embeddings,
      batchAttempts resp batchLen attempt remaining = some embeddings →
      embeddings.length = batchLen := by
  intro remaining
  induction remaining with
  | zero => intro attempt embeddings h; exact absurd h (by simp [batchAttempts])
  | succ n ih =>
    intro attempt embeddings h
    unfold batchAttempts at h
    cases hr : resp attempt with
    | some es =>
      rw [hr] at h
      dsimp only at h
      by_cases hl : es.length = batchLen
      · rw [if_pos hl] at h
        obtain rfl := Option.some.inj h
        exact hl
      · rw [if_neg hl] at h
        exact ih (attempt + 1) embeddings h
    | none =>
      rw [hr] at h
      dsimp only at h
      exact ih (attempt + 1) embeddings h

theorem runBatch_length (resp : Nat → Option (List (List ℚ)))
    (batch : List String) : (runBatch resp batch).length = batch.length := by
  unfold runBatch
  cases h : batchAttempts resp batch.length 0 maxRetries with
  | some es => exact batchAttempts_length resp batch.length maxRetries 0 es h
  | none => simp

theorem chunksOfGo_join (batchSize : Nat) (hbs : 0 < batchSize) :
    ∀ fuel l, l.length ≤ fuel → (chunksOfGo batchSize fuel l).flatten = l := by
  intro fuel
  induction fuel with
  | zero =>
    intro l hl
    have : l = [] := List.length_eq_zero.mp (by omega)
    simp [this, chunksOfGo]
  | succ n ih =>
    intro l hl
    unfold chunksOfGo
    by_cases h : l = []
    · simp [h]
    · rw [if_neg h]
      have hlen : 1 ≤ l.length := by
        cases l with
        | nil => exact absurd rfl h
        | cons a t => simp
      have hrec : (l.drop batchSize).length ≤ n := by
        rw [List.length_drop]
        omega
      rw [List.flatten_cons, ih (l.drop batchSize) hrec]
      exact List.take_append_drop batchSize l

theorem chunksOf_join (batchSize : Nat) (hbs : 0 < batchSize) (l : List String) :
    (chunksOf batchSize l).flatten = l :=
  chunksOfGo_join batchSize hbs l.length l (le_refl _)

theorem enum_get?_map_runBatch (api : Nat → Nat → Option (List (List ℚ))) :
    ∀ (chunks : List (List String)) (k0 k : Nat) (chunk : List String),
      chunks.get? k = some chunk →
      ((chunks.enumFrom k0).map (fun bi => runBatch (api bi.1) bi.2)).get? k =
        some (runBatch (api (k0 + k)) chunk) := by
  intro chunks
  induction chunks with
  | nil => intro k0 k chunk h; simp at h
  | cons c cs ih =>
    intro k0 k chunk h
    cases k with
    | zero =>
      obtain rfl := Option.some.inj h
      simp [List.enumFrom]
    | succ n =>
      have := ih (k0 + 1) n chunk (by simpa using h)
      simpa [List.enumFrom, Nat.add_assoc, Nat.add_comm 1 n] using this

/-- Sum of the lengths of the mapped per-batch segments equals the sum of
the batch lengths, hence the joined output is as long as the joined
batches. -/
theorem join_map_runBatch_length (api : Nat → Nat → Option (List (List ℚ))) :
    ∀ (chunks : List (List String)) (k0 : Nat),
      (((chunks.enumFrom k0).map (fun bi => runBatch (api bi.1) bi.2)).flatten).length =
        chunks.flatten.length := by
  intro chunks
  induction chunks with
  | nil => intro k0; simp
  | cons c cs ih =>
    intro k0
    simp only [List.enumFrom, List.map_cons, List.flatten_cons, List.length_append]
    rw [runBatch_length, ih (k0 + 1)]

/-- C9, "Batch-embedding alignment invariant": for a non-empty text list
and an initialized client, the output has exactly one embedding slot per
input text, produced batch by batch, and each batch segment is either the
API's verified response for exactly that batch or one empty list per
batch item — so positional alignment is preserved for every possible
behaviour of the external API. -/
theorem claim_C9_batch_alignment (api : Nat → Nat → Option (List (List ℚ)))
    (texts : List String) (h : texts ≠ []) :
    (getEmbeddingsBatch api true texts).length = texts.length ∧
    (∃ segments : List (List (List ℚ)),
      getEmbeddingsBatch api true texts = segments.flatten ∧
      segments.length = (chunksOf 20 texts).length ∧
      ∀ k segment batch, segments.get? k = some segment →
        (chunksOf 20 texts).get? k = some batch →
        segment.length = batch.length ∧
        (segment = List.replicate batch.length [] ∨
          batchAttempts (api k) batch.length 0 maxRetries = some segment)) := by
  have hmain : getEmbeddingsBatch api true texts =
      ((chunksOf 20 texts).enum.map (fun bi => runBatch (api bi.1) bi.2)).flatten := by
    unfold getEmbeddingsBatch
    rw [if_neg h]
    simp
  constructor
  · rw [hmain]
    unfold List.enum
    rw [join_map_runBatch_length api (chunksOf 20 texts) 0]
    rw [chunksOf_join 20 (by omega) texts]
  · refine ⟨(chunksOf 20 texts).enum.map (fun bi => runBatch (api bi.1) bi.2),
      hmain, by simp [List.enum_length], ?_⟩
    intro k segment batch hseg hbatch
    unfold List.enum at hseg
    rw [enum_get?_map_runBatch api (chunksOf 20 texts) 0 k batch hbatch] at hseg
    obtain rfl := Option.some.inj hseg
    refine ⟨runBatch_length _ _, ?_⟩
    unfold runBatch
    simp only [Nat.zero_add]
    cases hatt : batchAttempts (api k) batch.length 0 maxRetries with
    | some es => exact Or.inr rfl
    | none => exact Or.inl rfl

/-- Witness for C9: a single text against an API that always fails — the
output still has exactly one (empty) slot. -/
theorem claim_C9_witness :
    ((["only text"] : List String) ≠ []) ∧
    (getEmbeddingsBatch (fun _ _ => none) true ["only text"]).length =
      (["only text"] : List String).length :=
  ⟨by simp, (claim_C9_batch_alignment (fun _ _ => none) ["only text"] (by simp)).1⟩

/-! ## Vector metadata construction (`_generate_embeddings_batch` /
`_generate_single_embedding`)

Each vector's metadata is built by the Python dict literal

    {"content": …, "parent_id": …, "title": …, "chunk_index": i,
     "is_fallback": False, **clean_metadata}

Dict-literal semantics: entries are written in order and a later duplicate
key overrides an earlier one, so the spread `**clean_metadata` wins over
the five fixed per-chunk fields. -/

inductive PyVal
  | s (v : String)
  | n (v : Nat)
  | b (v : Bool)
deriving DecidableEq, Repr

/-- Lookup under Python dict-literal semantics: the last entry written for
a key is its value. -/
def dictLookup (entries : List (String × PyVal)) (k : String) : Option PyVal :=
  (entries.reverse.find? (fun e => e.1 = k)).map (fun e => e.2)

/-- The metadata dict attached to one child-chunk vector: the fixed
per-chunk fields, then the document's cleaned metadata spread over them.
(`clean_metadata` is the document metadata with `description` popped; both
the batch path and the per-chunk fallback path build this same literal.) -/
def buildVectorMetadata (chunkContent parentId title : String)
    (chunkIndex : Nat) (cleanMetadata : List (String × PyVal)) :
    String → Option PyVal :=
  dictLookup
    ([("content", PyVal.s chunkContent), ("parent_id", PyVal.s parentId),
      ("title", PyVal.s title), ("chunk_index", PyVal.n chunkIndex),
      ("is_fallback", PyVal.b false)] ++ cleanMetadata)

theorem dictLookup_append_right (l1 l2 : List (String × PyVal)) (k : String)
    (v : PyVal) (h : dictLookup l2 k = some v) :
    dictLookup (l1 ++ l2) k = some v := by
  unfold dictLookup at *
  rw [List.reverse_append, List.find?_append]
  cases hf : l2.reverse.find? (fun e => e.1 = k) with
  | none => rw [hf] at h; exact absurd h (by simp)
  | some e =>
    rw [hf] at h
    simp only [Option.map_some'] at h ⊢
    simp [Option.orElse, hf, h]

/-- C10, "Vector-metadata override edge case": because `**clean_metadata`
is spread after the fixed per-chunk fields, a document-metadata key named
`content`, `parent_id`, `title`, `chunk_index` or `is_fallback` replaces
the chunk-level value in the stored vector metadata — in particular a
document key `parent_id` replaces the chunk's parent reference. -/
theorem claim_C10_metadata_override (chunkContent parentId title : String)
    (chunkIndex : Nat) (cleanMetadata : List (String × PyVal)) (k : String)
    (v : PyVal)
    (hk : k ∈ ["content", "parent_id", "title", "chunk_index", "is_fallback"])
    (hv : dictLookup cleanMetadata k = some v) :
    buildVectorMetadata chunkContent parentId title chunkIndex cleanMetadata k =
      some v := by
  unfold buildVectorMetadata
  exact dictLookup_append_right _ cleanMetadata k v hv

/-- Witness for C10: a document whose metadata carries
`parent_id = "doc-level"` makes the stored vector metadata report
`"doc-level"` although the child chunk's parent is `"real-parent"`. -/
theorem claim_C10_witness :
    (("parent_id" : String) ∈
      ["content", "parent_id", "title", "chunk_index", "is_fallback"]) ∧
    dictLookup [("parent_id", PyVal.s "doc-level")] "parent_id" =
      some (PyVal.s "doc-level") ∧
    buildVectorMetadata "chunk text" "real-parent" "Title" 0
      [("parent_id", PyVal.s "doc-level")] "parent_id" =
      some (PyVal.s "doc-level") :=
  ⟨by simp, by rfl,
   claim_C10_metadata_override "chunk text" "real-parent" "Title" 0
     [("parent_id", PyVal.s "doc-level")] "parent_id" (PyVal.s "doc-level")
     (by simp) (by rfl)⟩

/-! ## Indexing failure flow (`indexing_module` and
`process_and_index_document`)

The dual storage write `asyncio.gather(upsert_vectors, store_parent_chunks,
return_exceptions=True)` yields, per store, either `True`, `False`
(the adapters return `False` on caught errors) or a captured exception;
anything other than success makes `indexing_module` raise, its own
`except` swallows that and returns empty id lists, and the controller
turns empty `chunk_ids` into an HTTP 500 without recording the document. -/

inductive StorageOutcome
  | success
  | failure
  | exception
deriving DecidableEq, Repr

/-- `isinstance(result, Exception) or result is False`. -/
def storageFailed : StorageOutcome → Bool
  | .success => false
  | .failure => true
  | .exception => true

structure IndexResult where
  chunkIds : List String
  parentIds : List String
deriving DecidableEq, Repr

/-- The body of `indexing_module`'s `try:` after embedding: `vectorIds`
are the ids of the successfully embedded vectors, `parentIds` the parent
chunk ids.  An empty vector list returns empty ids before any storage; a
storage failure raises. -/
def indexingCore (vectorIds parentIds : List String)
    (upsert store : StorageOutcome) : Except String IndexResult :=
  if vectorIds = [] then Except.ok ⟨[], []⟩
  else if storageFailed upsert then Except.error "Failed to store vectors"
  else if storageFailed store then Except.error "Failed to store parent chunks"
  else Except.ok ⟨vectorIds, parentIds⟩

/-- `indexing_module`: the outer `except` converts any raised error into
the empty result `{"chunk_ids": [], "parent_ids": []}`. -/
def indexingModule (vectorIds parentIds : List String)
    (upsert store : StorageOutcome) : IndexResult :=
  match indexingCore vectorIds parentIds upsert store with
  | Except.ok r => r
  | Except.error _ => ⟨[], []⟩

/-- What `process_and_index_document` does after calling the service:
raise HTTP 500 on empty `chunk_ids`, else record the document (via
`user_documents_service.add_document`) with the returned ids. -/
inductive ControllerOutcome
  | recorded (chunkIds parentIds : List String)
  | httpError (statusCode : Nat) (detail : String)
deriving DecidableEq, Repr

def processAndIndexDocument (vectorIds parentIds : List String)
    (upsert store : StorageOutcome) : ControllerOutcome :=
  let result := indexingModule vectorIds parentIds upsert store
  if result.chunkIds = [] then
    ControllerOutcome.httpError 500 "Failed to index the document."
  else ControllerOutcome.recorded result.chunkIds result.parentIds

/-- C2, "Indexing is all-or-nothing towards the caller": if the vector
upsert or the parent-chunk persistence does not succeed, the indexing call
yields no chunk ids and no parent ids, and the controller raises HTTP 500
instead of recording the document in the user's document list. -/
theorem claim_C2_indexing_atomicity (vectorIds parentIds : List String)
    (upsert store : StorageOutcome)
    (h : storageFailed upsert = true ∨ storageFailed store = true) :
    indexingModule vectorIds parentIds upsert store = ⟨[], []⟩ ∧
    processAndIndexDocument vectorIds parentIds upsert store =
      ControllerOutcome.httpError 500 "Failed to index the document." := by
  have hmod : indexingModule vectorIds parentIds upsert store = ⟨[], []⟩ := by
    unfold indexingModule indexingCore
    by_cases hv : vectorIds = []
    · rw [if_pos hv]
    · rw [if_neg hv]
      rcases h with hu | hs
      · rw [if_pos hu]
      · by_cases hu : storageFailed upsert = true
        · rw [if_pos hu]
        · rw [if_neg hu, if_pos hs]
  refine ⟨hmod, ?_⟩
  unfold processAndIndexDocument
  rw [hmod]
  rfl

/-- Witness for C2: a failed upsert alongside a successful parent store. -/
theorem claim_C2_witness :
    (storageFailed StorageOutcome.failure = true ∨
      storageFailed StorageOutcome.success = true) ∧
    processAndIndexDocument ["c1", "c2"] ["p1"] StorageOutcome.failure
      StorageOutcome.success =
      ControllerOutcome.httpError 500 "Failed to index the document." :=
  ⟨Or.inl rfl,
   (claim_C2_indexing_atomicity ["c1", "c2"] ["p1"] StorageOutcome.failure
      StorageOutcome.success (Or.inl rfl)).2⟩

/-! ## Vector-store query scoping (`PineconeService.query_vectors`)

`query_vectors` builds the metadata filter from `username` and `documents`
(Python truthiness: an empty string / empty list adds no constraint) and
delegates the filtered nearest-neighbor search to the external Pinecone
index.  The index itself is not repository code. -/

structure VectorMetadata where
  username : Option String
  sourceFilename : Option String
deriving DecidableEq, Repr

structure StoredVector where
  id : String
  values : List ℚ
  metadata : VectorMetadata
deriving DecidableEq, Repr

structure QueryMatch where
  id : String
  score : ℚ
  metadata : VectorMetadata
deriving DecidableEq, Repr

/-- The `filter_dict` that `query_vectors` sends: an equality constraint on
`username` and/or a `{"$in": documents}` constraint on `source_filename`. -/
structure MetadataFilter where
  username : Option String
  sourceFilenameIn : Option (List String)
deriving DecidableEq, Repr

/-- Modelled from the spec: the external Vector Store's filter semantics
(§6, `query(vector, top_k, filter{username, source_filename?})`) — a
record matches when its metadata satisfies every constraint of the filter
(equality on `username`, membership for the `$in` list; a record lacking
the constrained key does not match). -/
def matchesFilter (f : Option MetadataFilter) (m : VectorMetadata) : Bool :=
  match f with
  | none => true
  | some f =>
    (match f.username with
     | none => true
     | some u => m.username = some u) &&
    (match f.sourceFilenameIn with
     | none => true
     | some ds => match m.sourceFilename with
       | some sf => sf ∈ ds
       | none => false)

/-- Modelled from the spec: the external Pinecone index's filtered
nearest-neighbor query — score every record matching the filter with the
similarity function `sim` and return the `top_k` best matches (stable
insertion sort by descending score). -/
def indexQuery (index : List StoredVector) (sim : List ℚ → List ℚ → ℚ)
    (queryVector : List ℚ) (topK : Nat) (f : Option MetadataFilter) :
    List QueryMatch :=
  (((index.filter (fun v => matchesFilter f v.metadata)).map (fun v =>
      ({ id := v.id, score := sim queryVector v.values, metadata := v.metadata }
        : QueryMatch))).insertionSort
    (fun a b => b.score ≤ a.score)).take topK

/-- `PineconeService.query_vectors`: build `filter_dict` (Python truthiness
on `username` and `documents`), pass `None` when no constraint was added,
query the index and format the matches.  The formatting step copies
`id`/`score`/`metadata` unchanged, so it is the identity here. -/
def queryVectors (index : List StoredVector) (sim : List ℚ → List ℚ → ℚ)
    (queryVector : List ℚ) (topK : Nat) (username : Option String)
    (documents : Option (List String)) : List QueryMatch :=
  let userConstraint : Option String :=
    match username with
    | some u => if u = "" then none else some u
    | none => none
  let docConstraint : Option (List String) :=
    match documents with
    | some ds => if ds = [] then none else some ds
    | none => none
  let metadataFilter : Option MetadataFilter :=
    if userConstraint = none ∧ docConstraint = none then none
    else some ⟨userConstraint, docConstraint⟩
  indexQuery index sim queryVector topK metadataFilter

theorem queryVectors_filter_some (index : List StoredVector)
    (sim : List ℚ → List ℚ → ℚ) (queryVector : List ℚ) (topK : Nat)
    (A : String) (documents : Option (List String)) (hA : A ≠ "") :
    queryVectors index sim queryVector topK (some A) documents =
      indexQuery index sim queryVector topK
        (some ⟨some A,
          match documents with
          | some ds => if ds = [] then none else some ds
          | none => none⟩) := by
  unfold queryVectors
  dsimp only
  rw [if_neg hA]
  have hcond : ¬ ((some A : Option String) = none ∧
      (match documents with
       | some ds => if ds = [] then none else some ds
       | none => none) = none) := by
    intro hand
    exact Option.some_ne_none A hand.1
  rw [if_neg hcond]

/-- C1, "Tenant isolation": with the query scoped to `username = A` (a
non-empty username, as sent by the controller), every returned match
carries metadata `username = A`; and upserting another tenant's vector
into the store does not change the query's result at all. -/
theorem claim_C1_tenant_isolation (index : List StoredVector)
    (sim : List ℚ → List ℚ → ℚ) (queryVector : List ℚ) (topK : Nat)
    (A : String) (documents : Option (List String)) (hA : A ≠ "") :
    (∀ r ∈ queryVectors index sim queryVector topK (some A) documents,
      r.metadata.username = some A) ∧
    (∀ v : StoredVector, v.metadata.username ≠ some A →
      queryVectors (index ++ [v]) sim queryVector topK (some A) documents =
        queryVectors index sim queryVector topK (some A) documents) := by
  constructor
  · intro r hr
    rw [queryVectors_filter_some index sim queryVector topK A documents hA] at hr
    unfold indexQuery at hr
    have hr2 := List.mem_of_mem_take hr
    rw [List.mem_insertionSort] at hr2
    rw [List.mem_map] at hr2
    obtain ⟨v, hv, rfl⟩ := hr2
    rw [List.mem_filter] at hv
    have hm := hv.2
    unfold matchesFilter at hm
    simp only [Bool.and_eq_true, decide_eq_true_eq] at hm
    exact hm.1
  · intro v hv
    rw [queryVectors_filter_some index sim queryVector topK A documents hA,
        queryVectors_filter_some (index ++ [v]) sim queryVector topK A documents hA]
    set dc : Option (List String) :=
      (match documents with
       | some ds => if ds = [] then none else some ds
       | none => none) with hdc
    unfold indexQuery
    rw [List.filter_append]
    have hmf : matchesFilter (some ⟨some A, dc⟩) v.metadata = false := by
      simp [matchesFilter, hv]
    have hone :
        List.filter (fun w => matchesFilter (some ⟨some A, dc⟩) w.metadata) [v] = [] := by
      simp [List.filter_cons, hmf]
    rw [hone, List.append_nil]

/-- Witness for C1: a two-tenant store; adding one more vector owned by
"bob" leaves "alice"'s query result unchanged. -/
theorem claim_C1_witness :
    (("alice" : String) ≠ "") ∧
    queryVectors
      ([⟨"v1", [1], ⟨some "alice", some "a.txt"⟩⟩,
        ⟨"v2", [2], ⟨some "bob", some "b.txt"⟩⟩] ++
       [⟨"v3", [3], ⟨some "bob", some "c.txt"⟩⟩])
      (fun _ _ => 0) [1] 5 (some "alice") none =
    queryVectors
      [⟨"v1", [1], ⟨some "alice", some "a.txt"⟩⟩,
       ⟨"v2", [2], ⟨some "bob", some "b.txt"⟩⟩]
      (fun _ _ => 0) [1] 5 (some "alice") none :=
  ⟨by decide,
   (claim_C1_tenant_isolation
      [⟨"v1", [1], ⟨some "alice", some "a.txt"⟩⟩,
       ⟨"v2", [2], ⟨some "bob", some "b.txt"⟩⟩]
      (fun _ _ => 0) [1] 5 "alice" none (by decide)).2
      ⟨"v3", [3], ⟨some "bob", some "c.txt"⟩⟩ (by decide)⟩

end DocuMind
